import Mathlib

set_option maxRecDepth 8000
set_option maxHeartbeats 2000000

/-!
Verification of the ZIP central-directory repair engine of FM4 Car Audio Tuner
(`rebuild_zip_central_directory` and `verify_zip` in `FM4_CarAudioTuner.py`).

A byte buffer is modelled as `List Nat` (each element a byte value `< 256`,
as Python's `bytes` guarantees; theorems that need this carry `ValidBuf`).
File I/O is a boundary concern: `rebuild_zip_central_directory` is modelled as
the pure buffer transformation (input buffer to the buffer written back), and
`verify_zip` as the pure predicate over the buffer.

Python exceptions (`struct.error` from out-of-range `unpack_from`/`pack` values
and `UnicodeEncodeError` from `str.encode("ascii")`) are modelled by `Option`:
`none` means the call raises.  Python's f-string diagnostic messages are
abstracted to the inductive `VMsg`, one constructor per distinct message with
its numeric arguments (the mapping to the actual strings is injective, so
equality of results is preserved).

The bounded loops of the source are written with an explicit structural fuel
argument so that every definition evaluates inside the kernel; the fuel passed
at each call site (`data.length + 1`, `cd_offset + 1`) strictly exceeds the
number of iterations the loop can make, since every iteration advances the
offset by at least one and the loop guard bounds the offset.
-/

/-- Little-endian 16-bit read at `off`: `struct.unpack_from("<H", data, off)`.
Out-of-range indices read the default `0`; every use in the embedding is
guarded by the same bounds check Python's `unpack_from` performs. -/
def readU16 (d : List Nat) (off : Nat) : Nat :=
  d.getD off 0 + 256 * d.getD (off + 1) 0

/-- Little-endian 32-bit read at `off`: `struct.unpack_from("<I", data, off)`. -/
def readU32 (d : List Nat) (off : Nat) : Nat :=
  d.getD off 0 + 256 * d.getD (off + 1) 0 + 65536 * d.getD (off + 2) 0 +
    16777216 * d.getD (off + 3) 0

/-- Python's `d[off : off + n]` (truncating at the end of the buffer). -/
def pySlice (d : List Nat) (off n : Nat) : List Nat :=
  (d.drop off).take n

/-- Little-endian bytes of a 16-bit value, as `struct.pack("<H", n)` lays them out. -/
def le16 (n : Nat) : List Nat :=
  [n % 256, n / 256 % 256]

/-- Little-endian bytes of a 32-bit value, as `struct.pack("<I", n)` lays them out. -/
def le32 (n : Nat) : List Nat :=
  [n % 256, n / 256 % 256, n / 65536 % 256, n / 16777216 % 256]

/-- `bytes.decode("ascii", errors="replace")`: every byte `≥ 0x80` becomes the
replacement character U+FFFD; bytes `< 0x80` are their own code point. -/
def asciiReplace (bs : List Nat) : List Nat :=
  bs.map (fun b => if b < 128 then b else 65533)

/-- A Python `bytes` buffer: every element is a byte value. -/
def ValidBuf (d : List Nat) : Bool :=
  d.all (· < 256)

/-- One scanned local-file-header entry, the dict built by
`rebuild_zip_central_directory`.  `name` holds the code points of the filename
after ASCII-with-replacement decoding. -/
structure LocalEntry where
  local_header_offset : Nat
  name : List Nat
  ver : Nat
  flags : Nat
  method : Nat
  modtime : Nat
  moddate : Nat
  crc : Nat
  comp_sz : Nat
  uncomp_sz : Nat
  fn_len : Nat
  extra_len : Nat
deriving DecidableEq, Repr

/-- Parse the local file header at `off`:
`struct.unpack_from("<HHHHHIIIHH", data, offset + 4)` plus the filename bytes
`data[offset + 30 : offset + 30 + fn_len]` decoded with ASCII-replace. -/
def parseEntryAt (d : List Nat) (off : Nat) : LocalEntry :=
  { local_header_offset := off
    name := asciiReplace (pySlice d (off + 30) (readU16 d (off + 26)))
    ver := readU16 d (off + 4)
    flags := readU16 d (off + 6)
    method := readU16 d (off + 8)
    modtime := readU16 d (off + 10)
    moddate := readU16 d (off + 12)
    crc := readU32 d (off + 14)
    comp_sz := readU32 d (off + 18)
    uncomp_sz := readU32 d (off + 22)
    fn_len := readU16 d (off + 26)
    extra_len := readU16 d (off + 28) }

/-- The scan loop's advance for an entry: `30 + fn_len + extra_len + comp_sz`. -/
def entrySize (e : LocalEntry) : Nat :=
  30 + e.fn_len + e.extra_len + e.comp_sz

/-- The scanner's `while offset < len(data) - 30` loop.  On the local-file-header
signature it appends the parsed entry and advances by `entrySize`; on the
central-directory signature it stops; otherwise it advances one byte.
Returns `(local_entries, local_data_end)`. -/
def scanLoopF : Nat → List Nat → Nat → List LocalEntry × Nat
  | 0, _, off => ([], off)
  | fuel + 1, d, off =>
    if off < d.length - 30 then
      if readU32 d off = 0x04034B50 then
        let e := parseEntryAt d off
        let r := scanLoopF fuel d (off + entrySize e)
        (e :: r.1, r.2)
      else if readU32 d off = 0x02014B50 then
        ([], off)
      else
        scanLoopF fuel d (off + 1)
    else ([], off)

/-- The scanner: run the loop from offset 0.  The fuel `d.length + 1` strictly
exceeds the possible number of iterations (each iteration needs
`off < d.length - 30` and advances `off` by at least one). -/
def scanZip (d : List Nat) : List LocalEntry × Nat :=
  scanLoopF (d.length + 1) d 0

/-- One central-directory record:
`struct.pack("<IHHHHHHIIIHHHHHII", 0x02014B50, ver, ver, flags, method, modtime,
moddate, crc, comp_sz, uncomp_sz, fn_len, 0, 0, 0, 0, 0, offset) + fn_bytes`.
`none` models the exceptions this Python expression can raise:
`UnicodeEncodeError` from `name.encode("ascii")` when any code point is not
ASCII (in particular the U+FFFD introduced by decoding), and `struct.error`
when a field does not fit its width. -/
def cdRecord (e : LocalEntry) : Option (List Nat) :=
  if e.name.all (· < 128) = true ∧ e.ver < 65536 ∧ e.flags < 65536 ∧
      e.method < 65536 ∧ e.modtime < 65536 ∧ e.moddate < 65536 ∧
      e.fn_len < 65536 ∧ e.crc < 4294967296 ∧ e.comp_sz < 4294967296 ∧
      e.uncomp_sz < 4294967296 ∧ e.local_header_offset < 4294967296 then
    some (le32 0x02014B50 ++ le16 e.ver ++ le16 e.ver ++ le16 e.flags ++
      le16 e.method ++ le16 e.modtime ++ le16 e.moddate ++ le32 e.crc ++
      le32 e.comp_sz ++ le32 e.uncomp_sz ++ le16 e.fn_len ++ le16 0 ++
      le16 0 ++ le16 0 ++ le16 0 ++ le32 0 ++ le32 e.local_header_offset ++
      e.name)
  else none

/-- The builder's `for e in local_entries: cd_entries += entry + fn_bytes`. -/
def buildCD : List LocalEntry → Option (List Nat)
  | [] => some []
  | e :: es =>
    match cdRecord e, buildCD es with
    | some r, some rest => some (r ++ rest)
    | _, _ => none

/-- The end-of-central-directory record:
`struct.pack("<IHHHHIIH", 0x06054B50, 0, 0, n, n, cdsize, cdoff, 0)`.
`none` models `struct.error` on out-of-range fields. -/
def eocdRecord (n cdsize cdoff : Nat) : Option (List Nat) :=
  if n < 65536 ∧ cdsize < 4294967296 ∧ cdoff < 4294967296 then
    some ([80, 75, 5, 6] ++ le16 0 ++ le16 0 ++ le16 n ++ le16 n ++
      le32 cdsize ++ le32 cdoff ++ le16 0)
  else none

/-- `rebuild_zip_central_directory`, as the pure buffer transformation: scan
the local entries, build the central directory, append the EOCD, and return
`data[:local_data_end] + cd_entries + eocd` (the buffer written back to disk).
`none` models an escaping exception. -/
def rebuild_zip_central_directory (data : List Nat) : Option (List Nat) :=
  match buildCD (scanZip data).1 with
  | none => none
  | some cd =>
    match eocdRecord (scanZip data).1.length cd.length (scanZip data).2 with
    | none => none
    | some eo => some (data.take (scanZip data).2 ++ cd ++ eo)

/-- Does `d[p : p + 4]` equal the raw EOCD signature bytes `b"PK\x05\x06"`? -/
def matchesAt (d : List Nat) (p : Nat) : Bool :=
  decide (pySlice d p 4 = [80, 75, 5, 6])

/-- Highest match position at most `k`, scanning downward. -/
def rfindAux (d : List Nat) : Nat → Option Nat
  | 0 => if matchesAt d 0 then some 0 else none
  | k + 1 => if matchesAt d (k + 1) then some (k + 1) else rfindAux d k

/-- `data.rfind(b"PK\x05\x06")`: the highest offset whose 4-byte window equals
the EOCD signature, `none` when absent (Python's `-1`). -/
def rfindPK56 (d : List Nat) : Option Nat :=
  if 4 ≤ d.length then rfindAux d (d.length - 4) else none

/-- The verifier's diagnostic messages, one constructor per f-string with its
numeric arguments. -/
inductive VMsg where
  | noEOCD : VMsg
  | offsetOOB (cdOffset : Nat) : VMsg
  | badCDSig (cdOffset : Nat) : VMsg
  | mismatch (localCount entryCount : Nat) : VMsg
  | valid (entryCount cdOffset : Nat) : VMsg
deriving DecidableEq, Repr

/-- The verifier's `while offset < cd_offset` counting loop.  On the
local-file-header signature it counts and advances by
`30 + fields[8] + fields[9] + fields[6]`; otherwise it advances one byte.
`none` models `struct.error` when an `unpack_from` runs past the buffer end. -/
def countLoopF : Nat → List Nat → Nat → Nat → Option Nat
  | 0, _, _, _ => none
  | fuel + 1, d, off, cdo =>
    if off < cdo then
      if off + 4 ≤ d.length then
        if readU32 d off = 0x04034B50 then
          if off + 30 ≤ d.length then
            match countLoopF fuel d
                (off + 30 + readU16 d (off + 26) + readU16 d (off + 28) +
                  readU32 d (off + 18)) cdo with
            | some n => some (n + 1)
            | none => none
          else none
        else countLoopF fuel d (off + 1) cdo
      else none
    else some 0

/-- `verify_zip`, as the pure predicate: locate the EOCD signature from the
end, read the central-directory offset at `+16`, bounds-check it, check the
central-directory signature, read the declared entry count at `+10`, re-count
local headers from offset 0, and compare.  `none` models an escaping
`struct.error`.  The fuel `cdo + 1` strictly exceeds the counting loop's
possible iterations. -/
def verify_zip (data : List Nat) : Option (Bool × VMsg) :=
  match rfindPK56 data with
  | none => some (false, VMsg.noEOCD)
  | some p =>
    if p + 20 ≤ data.length then
      let cdo := readU32 data (p + 16)
      if data.length ≤ cdo then some (false, VMsg.offsetOOB cdo)
      else if pySlice data cdo 4 ≠ [80, 75, 1, 2] then some (false, VMsg.badCDSig cdo)
      else
        match countLoopF (cdo + 1) data 0 cdo with
        | none => none
        | some lc =>
          if lc ≠ readU16 data (p + 10) then
            some (false, VMsg.mismatch lc (readU16 data (p + 10)))
          else some (true, VMsg.valid (readU16 data (p + 10)) cdo)
    else none

/-- `tilesFrom d off es`: the region of `d` from `off` to the end of the buffer
is exactly the concatenation of the well-formed local file headers plus
payloads described by `es`, each parsed where the scanner would parse it.
`tilesFrom d 0 es = true` is the claims' "the Scanner can fully parse the
buffer with zero entries lost": every byte is consumed as header plus payload,
with no one-byte fallback step. -/
def tilesFrom (d : List Nat) : Nat → List LocalEntry → Bool
  | off, [] => off == d.length
  | off, e :: es =>
    decide (off < d.length - 30) && (readU32 d off == 0x04034B50) &&
      (e == parseEntryAt d off) && tilesFrom d (off + entrySize e) es

/-- Follows the spec's words for verification step 5 (§4.5): re-scan counting
local headers with NO byte-by-byte fallback, so the first 4-byte value that is
not the local-file-header signature ends counting immediately.  Declared only
to be compared against the source's counting loop `countLoopF`. -/
def countNoFallback : Nat → List Nat → Nat → Nat → Nat
  | 0, _, _, _ => 0
  | fuel + 1, d, off, cdo =>
    if off < cdo then
      if readU32 d off = 0x04034B50 then
        countNoFallback fuel d
          (off + 30 + readU16 d (off + 26) + readU16 d (off + 28) +
            readU32 d (off + 18)) cdo + 1
      else 0
    else 0

/-- The scanner's entry list for a buffer. -/
def scanEntries (d : List Nat) : List LocalEntry :=
  (scanZip d).1

/-- The scanner's `local_data_end` for a buffer. -/
def scanEnd (d : List Nat) : Nat :=
  (scanZip d).2

/-- The central-directory block the repairer builds for a buffer. -/
def repairCD (d : List Nat) : Option (List Nat) :=
  buildCD (scanEntries d)

/-- The EOCD record the repairer appends for a buffer. -/
def repairEOCD (d : List Nat) : Option (List Nat) :=
  eocdRecord (scanEntries d).length ((repairCD d).getD []).length (scanEnd d)

/-- The byte layout of one central-directory record `l` built from entry `e`:
46 fixed bytes then the filename; signature `0x02014B50`; `version_made_by`
and `version_needed` both the entry's single `ver` field; flags, method,
mod time, mod date, crc32, sizes and filename length copied verbatim; four
zeroed 16-bit fields and one zeroed 32-bit field; the 4-byte
`local_header_offset` back-reference; then the raw filename bytes. -/
def CDLayout (e : LocalEntry) (l : List Nat) : Prop :=
  l.length = 46 + e.name.length ∧
  pySlice l 0 4 = [80, 75, 1, 2] ∧
  pySlice l 4 2 = le16 e.ver ∧
  pySlice l 6 2 = le16 e.ver ∧
  pySlice l 8 2 = le16 e.flags ∧
  pySlice l 10 2 = le16 e.method ∧
  pySlice l 12 2 = le16 e.modtime ∧
  pySlice l 14 2 = le16 e.moddate ∧
  pySlice l 16 4 = le32 e.crc ∧
  pySlice l 20 4 = le32 e.comp_sz ∧
  pySlice l 24 4 = le32 e.uncomp_sz ∧
  pySlice l 28 2 = le16 e.fn_len ∧
  pySlice l 30 12 = List.replicate 12 0 ∧
  pySlice l 42 4 = le32 e.local_header_offset ∧
  l.drop 46 = e.name

/-- 31-byte buffer: one local header declaring a 1-byte filename whose single
byte is `0xFF` (not ASCII). -/
def c2buf : List Nat :=
  [80, 75, 3, 4] ++ List.replicate 22 0 ++ [1, 0, 0, 0] ++ [255]

/-- 57-byte buffer: one junk byte, a 30-byte local header, the 4
central-directory signature bytes, then an EOCD declaring 1 entry with
central-directory offset 31. -/
def c3buf : List Nat :=
  [0] ++ ([80, 75, 3, 4] ++ List.replicate 26 0) ++ [80, 75, 1, 2] ++
    ([80, 75, 5, 6] ++ [0, 0, 0, 0] ++ [1, 0] ++ [1, 0] ++ [4, 0, 0, 0] ++
      [31, 0, 0, 0] ++ [0, 0])

/-- 31-byte buffer: one local header declaring a 100-byte filename, far past
the end of the buffer. -/
def c4buf : List Nat :=
  [80, 75, 3, 4] ++ List.replicate 22 0 ++ [100, 0, 0, 0] ++ [7]

/-- 31-byte buffer: one local header declaring a 50-byte filename. -/
def c4wit : List Nat :=
  [80, 75, 3, 4] ++ List.replicate 22 0 ++ [50, 0, 0, 0] ++ [7]

/-- 35-byte buffer: one local header with crc32 `0xFFFFFFFF` declaring a
22-byte filename of which only 5 bytes (`"abcde"`) are present. -/
def c6buf : List Nat :=
  [80, 75, 3, 4] ++ List.replicate 10 0 ++ [255, 255, 255, 255] ++
    List.replicate 8 0 ++ [22, 0] ++ [0, 0] ++ [97, 98, 99, 100, 101]

/-- 30-byte buffer that is exactly one well-formed local file header with zero
filename length, zero extra length and zero compressed size. -/
def c7buf : List Nat :=
  [80, 75, 3, 4] ++ List.replicate 26 0

/-- `c7buf` with one trailing byte. -/
def c7wit : List Nat :=
  c7buf ++ [9]

/-- 40-byte local entry `"a.txt"`, compressed_size 5, 5 payload bytes. -/
def c8ent1 : List Nat :=
  [80, 75, 3, 4] ++ List.replicate 10 0 ++ [0, 0, 0, 0] ++ [5, 0, 0, 0] ++
    [5, 0, 0, 0] ++ [5, 0] ++ [0, 0] ++ [97, 46, 116, 120, 116] ++ [1, 2, 3, 4, 5]

/-- 38-byte local entry `"b.txt"`, compressed_size 3, 3 payload bytes. -/
def c8ent2 : List Nat :=
  [80, 75, 3, 4] ++ List.replicate 10 0 ++ [0, 0, 0, 0] ++ [3, 0, 0, 0] ++
    [3, 0, 0, 0] ++ [5, 0] ++ [0, 0] ++ [98, 46, 116, 120, 116] ++ [6, 7, 8]

/-- The 78-byte two-entry buffer of the concrete scenario. -/
def c8buf : List Nat :=
  c8ent1 ++ c8ent2

/-- 33-byte buffer that is exactly one local entry: filename `"x"`,
compressed_size 2, 2 payload bytes. -/
def c1wbuf : List Nat :=
  [80, 75, 3, 4] ++ List.replicate 10 0 ++ [0, 0, 0, 0] ++ [2, 0, 0, 0] ++
    [0, 0, 0, 0] ++ [1, 0] ++ [0, 0] ++ [120] ++ [5, 5]

/-- The entry list tiling `c1wbuf`. -/
def c1wes : List LocalEntry :=
  [⟨0, [120], 0, 0, 0, 0, 0, 0, 2, 0, 1, 0⟩]

/-- 33-byte buffer that is exactly one local entry: filename `"q"`,
compressed_size 2, 2 payload bytes. -/
def c6wbuf : List Nat :=
  [80, 75, 3, 4] ++ List.replicate 10 0 ++ [0, 0, 0, 0] ++ [2, 0, 0, 0] ++
    [0, 0, 0, 0] ++ [1, 0] ++ [0, 0] ++ [113] ++ [9, 9]

/-- The entry list tiling `c6wbuf`. -/
def c6wes : List LocalEntry :=
  [⟨0, [113], 0, 0, 0, 0, 0, 0, 2, 0, 1, 0⟩]

/-- A sample entry with every field nonzero-ish, for instantiating the
builder-layout theorem. -/
def c9e : LocalEntry :=
  ⟨3, [104, 105], 20, 2, 8, 1000, 2000, 123456, 77, 88, 2, 4⟩

/-- The 22 bytes of `eocdRecord n s c` in the in-range case, written out. -/
def eocdBytes (n s c : Nat) : List Nat :=
  [80, 75, 5, 6, 0, 0, 0, 0, n % 256, n / 256 % 256, n % 256, n / 256 % 256,
    s % 256, s / 256 % 256, s / 65536 % 256, s / 16777216 % 256,
    c % 256, c / 256 % 256, c / 65536 % 256, c / 16777216 % 256, 0, 0]

/-- The scan loop returns immediately (emitting nothing) whenever at most 30
bytes remain, at any fuel. -/
theorem scanLoopF_halt (d : List Nat) (off : Nat) (fuel : Nat)
    (h : d.length ≤ off + 30) : scanLoopF fuel d off = ([], off) := by
  cases fuel with
  | zero => rfl
  | succ f =>
    have : ¬ off < d.length - 30 := by omega
    simp [scanLoopF, this]

/-- C5: code evaluated at the failing input.  `verify_zip` on the 4-byte buffer
`b"PK\x05\x06"` raises `struct.error` (modelled `none`) instead of returning a
`VerificationResult`: `rfind` locates the signature at offset 0, and
`unpack_from("<I", data, 16)` runs past the end of the 4-byte buffer. -/
theorem C5_verify_raises_on_truncated_buffer :
    verify_zip [80, 75, 5, 6] = none := by decide

/-- C2: code evaluated at the failing input.  On a buffer whose local header
declares a 1-byte filename with the non-ASCII byte `0xFF`, the scan itself
succeeds — the byte is decoded to the replacement character U+FFFD (65533) —
but the repair pipeline then raises `UnicodeEncodeError` in the builder's
`name.encode("ascii")` (modelled `none`), so no repaired buffer is returned. -/
theorem C2_repair_raises_on_nonascii_name :
    (scanZip c2buf).1 = [⟨0, [65533], 0, 0, 0, 0, 0, 0, 0, 0, 1, 0⟩] ∧
    rebuild_zip_central_directory c2buf = none := by
  constructor
  · decide
  · decide

/-- C7 counterexample: `c7buf` is a 30-byte buffer whose final 30 bytes are a
well-formed local file header with zero filename length, zero extra length and
zero compressed size, yet the scanner emits no entry at all (the loop guard is
`offset < len(data) - 30`, which is already false at offset 0). -/
theorem C7_final_header_not_emitted :
    readU32 c7buf 0 = 0x04034B50 ∧
    (parseEntryAt c7buf 0).fn_len = 0 ∧ (parseEntryAt c7buf 0).extra_len = 0 ∧
    (parseEntryAt c7buf 0).comp_sz = 0 ∧ c7buf.length = 30 ∧
    scanZip c7buf = ([], 0) := by
  refine ⟨by decide, by decide, by decide, by decide, by decide, by decide⟩

/-- C7 (amended): the scan loop terminates as soon as the remaining buffer is
at most 30 bytes — not strictly smaller than 30 — so a final 30-byte header
ending exactly at the buffer end is never parsed; a well-formed zero-length
header is parsed and emitted whenever at least one byte follows it. -/
theorem C7_loop_bound_amended :
    (∀ (d : List Nat) (off fuel : Nat), d.length ≤ off + 30 →
      scanLoopF fuel d off = ([], off)) ∧
    (∀ (d : List Nat) (off f : Nat), off + 30 < d.length → d.length ≤ off + 60 →
      readU32 d off = 0x04034B50 → entrySize (parseEntryAt d off) = 30 →
      scanLoopF (f + 1) d off = ([parseEntryAt d off], off + 30)) := by
  constructor
  · exact fun d off fuel h => scanLoopF_halt d off fuel h
  · intro d off f h1 h2 hsig hsz
    have hg : off < d.length - 30 := by omega
    have hrest : scanLoopF f d (off + entrySize (parseEntryAt d off)) =
        ([], off + entrySize (parseEntryAt d off)) := by
      refine scanLoopF_halt d _ f ?_
      omega
    rw [hsz] at hrest
    simp [scanLoopF, hg, hsig, hsz, hrest]

/-- C7 witness: the amended loop bound applied to concrete buffers — a 3-byte
buffer stops at once, and a 31-byte buffer whose first 30 bytes are a
zero-length header followed by one byte emits that header. -/
theorem C7_loop_bound_amended_witness :
    scanLoopF 4 [1, 2, 3] 0 = ([], 0) ∧
    scanLoopF 3 c7wit 0 = ([parseEntryAt c7wit 0], 30) := by
  exact ⟨C7_loop_bound_amended.1 [1, 2, 3] 0 4 (by decide),
    C7_loop_bound_amended.2 c7wit 0 2 (by decide) (by decide) (by decide) (by decide)⟩

/-- C4 counterexample: on `c4buf` the local header's declared filename length
(100) extends far past the 31-byte buffer end, yet the scanner still appends
the entry (with the stored name truncated to the single available byte) —
it does not stop without emitting. -/
theorem C4_truncated_header_still_emitted :
    c4buf.length < 30 + (parseEntryAt c4buf 0).fn_len ∧
    (scanZip c4buf).1 = [parseEntryAt c4buf 0] ∧
    (parseEntryAt c4buf 0).name = [7] := by
  refine ⟨by decide, by decide, by decide⟩

/-- C4 (amended): when a local-file-header signature is recognized with more
than 30 bytes remaining, the entry is appended even if its declared
filename/extra/compressed lengths extend past the end of the buffer; the scan
then stops because the offset has advanced past the region.  (Only the fixed
30-byte header is protected from truncation, by the loop guard itself.) -/
theorem C4_oversized_entry_emitted_amended (d : List Nat) (off f : Nat)
    (hg : off < d.length - 30) (hsig : readU32 d off = 0x04034B50)
    (hover : d.length < off + entrySize (parseEntryAt d off)) :
    scanLoopF (f + 1) d off =
      ([parseEntryAt d off], off + entrySize (parseEntryAt d off)) := by
  have hrest : scanLoopF f d (off + entrySize (parseEntryAt d off)) =
      ([], off + entrySize (parseEntryAt d off)) := by
    refine scanLoopF_halt d _ f ?_
    omega
  simp [scanLoopF, hg, hsig, hrest]

/-- C4 witness: the amended statement applied to `c4wit` (declared filename
length 50, buffer length 31). -/
theorem C4_oversized_entry_emitted_amended_witness :
    0 < c4wit.length - 30 ∧ readU32 c4wit 0 = 0x04034B50 ∧
    c4wit.length < 0 + entrySize (parseEntryAt c4wit 0) ∧
    scanLoopF 6 c4wit 0 = ([parseEntryAt c4wit 0], 0 + entrySize (parseEntryAt c4wit 0)) := by
  exact ⟨by decide, by decide, by decide,
    C4_oversized_entry_emitted_amended c4wit 0 5 (by decide) (by decide) (by decide)⟩

/-- C3 counterexample: `c3buf` passes verification steps 1-3, its first 4-byte
value (at offset 0) is not the local-file-header signature, and the contiguous
run of headers at offset 0 is therefore empty — the spec's no-fallback count
(`countNoFallback`) is 0 — yet the code's counting loop resynchronizes one
byte later, counts 1, matches the declared count and reports the archive
valid. -/
theorem C3_fallback_counterexample :
    readU32 c3buf 0 ≠ 0x04034B50 ∧
    countNoFallback 32 c3buf 0 31 = 0 ∧
    countLoopF 32 c3buf 0 31 = some 1 ∧
    verify_zip c3buf = some (true, VMsg.valid 1 31) := by
  refine ⟨by decide, by decide, by decide, by decide⟩

/-- C3 (amended): the verifier's counting loop uses the same byte-by-byte
fallback as the scanner — a 4-byte value that is not the local-file-header
signature does not end the counting phase; the loop advances exactly one byte
and continues, so the counted value is that of the resynchronizing scan, not
the length of the contiguous run at offset 0. -/
theorem C3_verify_fallback_amended (d : List Nat) (off cdo fuel : Nat)
    (h1 : off < cdo) (h2 : off + 4 ≤ d.length)
    (h3 : readU32 d off ≠ 0x04034B50) :
    countLoopF (fuel + 1) d off cdo = countLoopF fuel d (off + 1) cdo := by
  simp [countLoopF, h1, h2, h3]

/-- C3 witness: the amended fallback step applied to a concrete buffer with a
non-matching first 4-byte value. -/
theorem C3_verify_fallback_amended_witness :
    0 < 2 ∧ 0 + 4 ≤ 5 ∧ readU32 [9, 9, 9, 9, 9] 0 ≠ 0x04034B50 ∧
    countLoopF 5 [9, 9, 9, 9, 9] 0 2 = countLoopF 4 [9, 9, 9, 9, 9] 1 2 := by
  exact ⟨by decide, by decide, by decide,
    C3_verify_fallback_amended [9, 9, 9, 9, 9] 0 2 4 (by decide) (by decide) (by decide)⟩

/-- C8: the concrete two-entry scenario.  Repairing the 78-byte buffer with
entries `"a.txt"` (compressed_size 5) and `"b.txt"` (compressed_size 3)
yields a 202-byte archive whose EOCD declares total_entries = 2 (16-bit field
at EOCD offset +10) and central-directory offset 78 = 30*2 + 5 + 3 + 5 + 5
(32-bit field at EOCD offset +16), and `verify_zip` accepts it. -/
theorem C8_two_entry_scenario :
    (rebuild_zip_central_directory c8buf).bind verify_zip =
      some (true, VMsg.valid 2 78) ∧
    ((rebuild_zip_central_directory c8buf).getD []).length = 202 ∧
    readU16 ((rebuild_zip_central_directory c8buf).getD []) (202 - 22 + 10) = 2 ∧
    readU32 ((rebuild_zip_central_directory c8buf).getD []) (202 - 22 + 16) = 78 ∧
    scanEnd c8buf = 78 := by
  refine ⟨by decide, by decide, by decide, by decide, by decide⟩

/-- C1 counterexample: the empty buffer is fully parsed by the scanner with
zero entries lost (vacuously — `tilesFrom [] 0 [] = true`), yet repair
followed by verify reports `valid = false`: with zero entries the rebuilt
archive is a bare EOCD whose central-directory offset 0 points at the EOCD
signature itself, failing the central-directory signature check. -/
theorem C1_zero_entry_counterexample :
    tilesFrom ([] : List Nat) 0 [] = true ∧
    (rebuild_zip_central_directory []).bind verify_zip =
      some (false, VMsg.badCDSig 0) := by
  refine ⟨by decide, by decide⟩

/-- C6 counterexample: on `c6buf` the first repair succeeds, but its output's
local region is followed by the rebuilt central directory, so the second
repair's scan reads the oversized declared filename into the central
directory's `0xFF` crc bytes; decoding inserts U+FFFD and the second repair
raises `UnicodeEncodeError` (modelled `none`).  Hence
`verify(repair(repair(b)))` differs from `verify(repair(b))`. -/
theorem C6_idempotence_counterexample :
    ((rebuild_zip_central_directory c6buf).bind
        rebuild_zip_central_directory).bind verify_zip ≠
      (rebuild_zip_central_directory c6buf).bind verify_zip := by
  decide

/-- C9: the central-directory builder's record layout.  Every record the
builder produces has the 46-byte fixed layout of `CDLayout` followed by the
raw filename bytes, and the block for a list of entries is the concatenation
of the per-entry records in scan order. -/
theorem C9_builder_record_layout :
    (∀ (e : LocalEntry) (l : List Nat), cdRecord e = some l → CDLayout e l) ∧
    (∀ (e : LocalEntry) (es : List LocalEntry) (cd : List Nat),
      buildCD (e :: es) = some cd →
      cdRecord e ≠ none ∧ buildCD es ≠ none ∧
      cd = (cdRecord e).getD [] ++ (buildCD es).getD []) := by
  constructor
  · intro e l h
    unfold cdRecord at h
    split at h
    · injection h with h
      subst h
      unfold CDLayout
      refine ⟨?_, ?_⟩
      · simp [le16, le32]
        omega
      · simp [pySlice, le16, le32, List.replicate]
    · exact absurd h (by simp)
  · intro e es cd h
    simp only [buildCD] at h
    cases hcr : cdRecord e with
    | none => rw [hcr] at h; simp at h
    | some r =>
      cases hcb : buildCD es with
      | none => rw [hcr, hcb] at h; simp at h
      | some rest =>
        rw [hcr, hcb] at h
        simp only [Option.some.injEq] at h
        subst h
        simp [hcr, hcb]

/-- C9 witness: the layout theorem applied to the concrete entry `c9e` and to
the one-entry list `[c9e]`. -/
theorem C9_builder_record_layout_witness :
    cdRecord c9e ≠ none ∧
    CDLayout c9e ((cdRecord c9e).getD []) ∧
    ([c9e].head?.isSome ∧ buildCD [c9e] ≠ none) ∧
    (buildCD [c9e]).getD [] = (cdRecord c9e).getD [] ++ (buildCD ([] : List LocalEntry)).getD [] := by
  refine ⟨by decide, ?_, ⟨by decide, by decide⟩, ?_⟩
  · exact C9_builder_record_layout.1 c9e ((cdRecord c9e).getD []) (by decide)
  · have h := C9_builder_record_layout.2 c9e [] ((buildCD [c9e]).getD []) (by decide)
    exact h.2.2

/-- C10: repair's output frame.  Whenever repair returns a buffer, that buffer
is exactly the input's first `local_data_end` bytes (the Python slice
`data[:local_data_end]`, byte-for-byte), followed by the built
central-directory block, followed by the 22-byte EOCD record; the input's
bytes at or beyond `local_data_end` contribute nothing else to the output. -/
theorem C10_repair_output_frame (data out : List Nat)
    (h : rebuild_zip_central_directory data = some out) :
    repairCD data ≠ none ∧ repairEOCD data ≠ none ∧
    out = data.take (scanEnd data) ++ (repairCD data).getD [] ++
      (repairEOCD data).getD [] ∧
    ((repairEOCD data).getD []).length = 22 := by
  unfold rebuild_zip_central_directory at h
  split at h
  next heq => exact absurd h (by simp)
  next cd heq =>
    split at h
    next heq2 => exact absurd h (by simp)
    next eo heq2 =>
      simp only [Option.some.injEq] at h
      subst h
      have hrcd : repairCD data = some cd := heq
      have hreo : repairEOCD data = some eo := by
        unfold repairEOCD
        rw [hrcd]
        exact heq2
      have heolen : eo.length = 22 := by
        unfold eocdRecord at heq2
        split at heq2
        · injection heq2 with heq2
          subst heq2
          simp [le16, le32]
        · exact absurd heq2 (by simp)
      refine ⟨by simp [hrcd], by simp [hreo], ?_, by simp [hreo, heolen]⟩
      simp [hrcd, hreo, scanEnd]

/-- C10 witness: the frame theorem applied to a 3-byte garbage buffer — the
scan finds nothing, `local_data_end` is 0, and the whole input is discarded in
favour of the empty prefix, empty central directory and bare EOCD. -/
theorem C10_repair_output_frame_witness :
    rebuild_zip_central_directory [1, 2, 3] =
      some ((rebuild_zip_central_directory [1, 2, 3]).getD []) ∧
    (repairCD [1, 2, 3] ≠ none ∧ repairEOCD [1, 2, 3] ≠ none ∧
      (rebuild_zip_central_directory [1, 2, 3]).getD [] =
        [1, 2, 3].take (scanEnd [1, 2, 3]) ++ (repairCD [1, 2, 3]).getD [] ++
          (repairEOCD [1, 2, 3]).getD [] ∧
      ((repairEOCD [1, 2, 3]).getD []).length = 22) := by
  exact ⟨by decide, C10_repair_output_frame [1, 2, 3] _ (by decide)⟩

theorem getD_app_right' (a b : List Nat) (i j : Nat) (h : i = a.length + j) :
    (a ++ b).getD i 0 = b.getD j 0 := by
  subst h
  rw [List.getD_append_right _ _ _ _ (by omega)]
  congr 1
  omega

theorem readU16_append (a b : List Nat) (i : Nat) (h : i + 2 ≤ a.length) :
    readU16 (a ++ b) i = readU16 a i := by
  unfold readU16
  rw [List.getD_append _ _ _ _ (by omega), List.getD_append _ _ _ _ (by omega)]

theorem readU32_append (a b : List Nat) (i : Nat) (h : i + 4 ≤ a.length) :
    readU32 (a ++ b) i = readU32 a i := by
  unfold readU32
  rw [List.getD_append _ _ _ _ (by omega), List.getD_append _ _ _ _ (by omega),
    List.getD_append _ _ _ _ (by omega), List.getD_append _ _ _ _ (by omega)]

theorem pySlice_append (a b : List Nat) (i n : Nat) (h : i + n ≤ a.length) :
    pySlice (a ++ b) i n = pySlice a i n := by
  unfold pySlice
  rw [List.drop_append_of_le_length (by omega)]
  rw [List.take_append_of_le_length (by simp [List.length_drop]; omega)]

theorem parseEntryAt_append (a b : List Nat) (off : Nat)
    (h30 : off + 30 ≤ a.length)
    (hname : off + 30 + readU16 a (off + 26) ≤ a.length) :
    parseEntryAt (a ++ b) off = parseEntryAt a off := by
  unfold parseEntryAt
  rw [readU16_append a b (off + 26) (by omega)]
  rw [readU16_append a b (off + 4) (by omega), readU16_append a b (off + 6) (by omega),
    readU16_append a b (off + 8) (by omega), readU16_append a b (off + 10) (by omega),
    readU16_append a b (off + 12) (by omega), readU16_append a b (off + 28) (by omega),
    readU32_append a b (off + 14) (by omega), readU32_append a b (off + 18) (by omega),
    readU32_append a b (off + 22) (by omega),
    pySlice_append a b (off + 30) (readU16 a (off + 26)) (by omega)]

theorem tilesFrom_nil_iff (d : List Nat) (off : Nat) :
    tilesFrom d off [] = true ↔ off = d.length := by
  simp [tilesFrom]

theorem tilesFrom_cons_iff (d : List Nat) (off : Nat) (e : LocalEntry)
    (es : List LocalEntry) :
    tilesFrom d off (e :: es) = true ↔
      off < d.length - 30 ∧ readU32 d off = 0x04034B50 ∧
      e = parseEntryAt d off ∧ tilesFrom d (off + entrySize e) es = true := by
  simp [tilesFrom, Bool.and_assoc]

theorem tilesFrom_off_le (d : List Nat) :
    ∀ (es : List LocalEntry) (off : Nat), tilesFrom d off es = true → off ≤ d.length := by
  intro es
  induction es with
  | nil => intro off h; rw [tilesFrom_nil_iff] at h; omega
  | cons e es _ =>
    intro off h
    rw [tilesFrom_cons_iff] at h
    omega

theorem tilesFrom_size_sum (d : List Nat) :
    ∀ (es : List LocalEntry) (off : Nat), tilesFrom d off es = true →
      off + (es.map entrySize).sum = d.length := by
  intro es
  induction es with
  | nil => intro off h; rw [tilesFrom_nil_iff] at h; simp [h]
  | cons e es ih =>
    intro off h
    rw [tilesFrom_cons_iff] at h
    have := ih (off + entrySize e) h.2.2.2
    simp [List.sum_cons]
    omega

theorem sum_entrySize_ge (es : List LocalEntry) :
    30 * es.length ≤ (es.map entrySize).sum := by
  induction es with
  | nil => simp
  | cons e es ih =>
    simp [List.sum_cons, entrySize]
    omega

theorem getD_lt_256 (d : List Nat) (hv : ValidBuf d = true) :
    ∀ i, d.getD i 0 < 256 := by
  unfold ValidBuf at hv
  induction d with
  | nil => intro i; simp [List.getD]
  | cons x xs ih =>
    simp only [List.all_cons, Bool.and_eq_true, decide_eq_true_eq] at hv
    intro i
    cases i with
    | zero => simpa using hv.1
    | succ j =>
      have := ih (by simpa using hv.2) j
      simpa using this

theorem readU16_lt (d : List Nat) (hv : ValidBuf d = true) (i : Nat) :
    readU16 d i < 65536 := by
  unfold readU16
  have h1 := getD_lt_256 d hv i
  have h2 := getD_lt_256 d hv (i + 1)
  omega

theorem readU32_lt (d : List Nat) (hv : ValidBuf d = true) (i : Nat) :
    readU32 d i < 4294967296 := by
  unfold readU32
  have h1 := getD_lt_256 d hv i
  have h2 := getD_lt_256 d hv (i + 1)
  have h3 := getD_lt_256 d hv (i + 2)
  have h4 := getD_lt_256 d hv (i + 3)
  omega

theorem take4_getD (l : List Nat) (a b c e : Nat) (h : l.take 4 = [a, b, c, e]) :
    l.getD 0 0 = a ∧ l.getD 1 0 = b ∧ l.getD 2 0 = c ∧ l.getD 3 0 = e := by
  rcases l with _ | ⟨x, _ | ⟨y, _ | ⟨z, _ | ⟨w, rest⟩⟩⟩⟩
  · simp at h
  · simp at h
  · simp at h
  · simp at h
  · have h' : ([x, y, z, w] : List Nat) = [a, b, c, e] := h
    simp only [List.cons.injEq, and_true] at h'
    obtain ⟨h1, h2, h3, h4⟩ := h'
    exact ⟨h1, h2, h3, h4⟩

theorem rfindAux_last (d : List Nat) (p : Nat) :
    ∀ k, p ≤ k → matchesAt d p = true →
      (∀ q, p < q → q ≤ k → matchesAt d q = false) →
      rfindAux d k = some p := by
  intro k
  induction k with
  | zero =>
    intro hpk hm _
    have hp0 : p = 0 := by omega
    subst hp0
    simp [rfindAux, hm]
  | succ n ih =>
    intro hpk hm hno
    by_cases hpe : p = n + 1
    · subst hpe
      simp [rfindAux, hm]
    · have h1 : matchesAt d (n + 1) = false := hno (n + 1) (by omega) (by omega)
      simp only [rfindAux, h1, Bool.false_eq_true, if_false]
      exact ih (by omega) hm (fun q hq1 hq2 => hno q hq1 (by omega))

theorem cdRecord_length_eq (e : LocalEntry) (r : List Nat) (h : cdRecord e = some r) :
    r.length = 46 + e.name.length := by
  unfold cdRecord at h
  split at h
  · injection h with h
    subst h
    simp [le16, le32]
    omega
  · exact absurd h (by simp)

theorem cdRecord_take4 (e : LocalEntry) (r : List Nat) (h : cdRecord e = some r) :
    r.take 4 = [80, 75, 1, 2] := by
  unfold cdRecord at h
  split at h
  · injection h with h
    subst h
    rfl
  · exact absurd h (by simp)

theorem buildCD_cons_inv (e : LocalEntry) (es : List LocalEntry) (cd : List Nat)
    (h : buildCD (e :: es) = some cd) :
    ∃ r rest, cdRecord e = some r ∧ buildCD es = some rest ∧ cd = r ++ rest := by
  simp only [buildCD] at h
  cases hcr : cdRecord e with
  | none => rw [hcr] at h; simp at h
  | some r =>
    cases hcb : buildCD es with
    | none => rw [hcr, hcb] at h; simp at h
    | some rest =>
      rw [hcr, hcb] at h
      simp only [Option.some.injEq] at h
      exact ⟨r, rest, rfl, rfl, h.symm⟩

theorem eocdRecord_eq (n s c : Nat) (h1 : n < 65536) (h2 : s < 4294967296)
    (h3 : c < 4294967296) : eocdRecord n s c = some (eocdBytes n s c) := by
  unfold eocdRecord
  rw [if_pos ⟨h1, h2, h3⟩]
  simp [le16, le32, eocdBytes]

theorem eocdBytes_no_late_match (A : List Nat) (n s c : Nat)
    (hn : n ≤ 16666) (hs : s ≤ 766656) (hc : c ≤ 500000) :
    ∀ i, 1 ≤ i → i ≤ 18 → matchesAt (A ++ eocdBytes n s c) (A.length + i) = false := by
  intro i hi1 hi2
  unfold matchesAt
  rw [decide_eq_false_iff_not]
  intro hcontra
  unfold pySlice at hcontra
  rw [List.drop_append] at hcontra
  interval_cases i
  · have h' : ([75, 5, 6, 0] : List Nat) = [80, 75, 5, 6] := hcontra
    simp at h'
  · have h' : ([5, 6, 0, 0] : List Nat) = [80, 75, 5, 6] := hcontra
    simp at h'
  · have h' : ([6, 0, 0, 0] : List Nat) = [80, 75, 5, 6] := hcontra
    simp at h'
  · have h' : ([0, 0, 0, 0] : List Nat) = [80, 75, 5, 6] := hcontra
    simp at h'
  · have h' : ([0, 0, 0, n % 256] : List Nat) = [80, 75, 5, 6] := hcontra
    simp at h'
  · have h' : ([0, 0, n % 256, n / 256 % 256] : List Nat) = [80, 75, 5, 6] := hcontra
    simp at h'
  · have h' : ([0, n % 256, n / 256 % 256, n % 256] : List Nat) = [80, 75, 5, 6] := hcontra
    simp at h'
  · have h' : ([n % 256, n / 256 % 256, n % 256, n / 256 % 256] : List Nat) =
        [80, 75, 5, 6] := hcontra
    simp at h'
    omega
  · have h' : ([n / 256 % 256, n % 256, n / 256 % 256, s % 256] : List Nat) =
        [80, 75, 5, 6] := hcontra
    simp at h'
    omega
  · have h' : ([n % 256, n / 256 % 256, s % 256, s / 256 % 256] : List Nat) =
        [80, 75, 5, 6] := hcontra
    simp at h'
    omega
  · have h' : ([n / 256 % 256, s % 256, s / 256 % 256, s / 65536 % 256] : List Nat) =
        [80, 75, 5, 6] := hcontra
    simp at h'
    omega
  · have h' : ([s % 256, s / 256 % 256, s / 65536 % 256, s / 16777216 % 256] : List Nat) =
        [80, 75, 5, 6] := hcontra
    simp at h'
    omega
  · have h' : ([s / 256 % 256, s / 65536 % 256, s / 16777216 % 256, c % 256] : List Nat) =
        [80, 75, 5, 6] := hcontra
    simp at h'
    omega
  · have h' : ([s / 65536 % 256, s / 16777216 % 256, c % 256, c / 256 % 256] : List Nat) =
        [80, 75, 5, 6] := hcontra
    simp at h'
    omega
  · have h' : ([s / 16777216 % 256, c % 256, c / 256 % 256, c / 65536 % 256] : List Nat) =
        [80, 75, 5, 6] := hcontra
    simp at h'
    omega
  · have h' : ([c % 256, c / 256 % 256, c / 65536 % 256, c / 16777216 % 256] : List Nat) =
        [80, 75, 5, 6] := hcontra
    simp at h'
    omega
  · have h' : ([c / 256 % 256, c / 65536 % 256, c / 16777216 % 256, 0] : List Nat) =
        [80, 75, 5, 6] := hcontra
    simp at h'
  · have h' : ([c / 65536 % 256, c / 16777216 % 256, 0, 0] : List Nat) =
        [80, 75, 5, 6] := hcontra
    simp at h'

theorem rfind_eocd (A : List Nat) (n s c : Nat)
    (hn : n ≤ 16666) (hs : s ≤ 766656) (hc : c ≤ 500000) :
    rfindPK56 (A ++ eocdBytes n s c) = some A.length := by
  have hlen : (A ++ eocdBytes n s c).length = A.length + 22 := by
    simp [List.length_append, eocdBytes]
  have hmatch : matchesAt (A ++ eocdBytes n s c) A.length = true := by
    unfold matchesAt
    rw [decide_eq_true_eq]
    unfold pySlice
    rw [List.drop_left]
    rfl
  unfold rfindPK56
  rw [if_pos (by omega)]
  rw [hlen]
  have h18 : A.length + 22 - 4 = A.length + 18 := by omega
  rw [h18]
  refine rfindAux_last _ A.length _ (by omega) hmatch ?_
  intro q hq1 hq2
  have hqe : q = A.length + (q - A.length) := by omega
  rw [hqe]
  exact eocdBytes_no_late_match A n s c hn hs hc (q - A.length) (by omega) (by omega)

theorem eocd_read_count (A : List Nat) (n s c : Nat) (hn : n < 65536) :
    readU16 (A ++ eocdBytes n s c) (A.length + 10) = n := by
  unfold readU16
  rw [getD_app_right' A _ _ 10 (by omega), getD_app_right' A _ _ 11 (by omega)]
  have g1 : (eocdBytes n s c).getD 10 0 = n % 256 := rfl
  have g2 : (eocdBytes n s c).getD 11 0 = n / 256 % 256 := rfl
  rw [g1, g2]
  omega

theorem eocd_read_cdoff (A : List Nat) (n s c : Nat) (hc : c < 4294967296) :
    readU32 (A ++ eocdBytes n s c) (A.length + 16) = c := by
  unfold readU32
  rw [getD_app_right' A _ _ 16 (by omega), getD_app_right' A _ _ 17 (by omega),
    getD_app_right' A _ _ 18 (by omega), getD_app_right' A _ _ 19 (by omega)]
  have g1 : (eocdBytes n s c).getD 16 0 = c % 256 := rfl
  have g2 : (eocdBytes n s c).getD 17 0 = c / 256 % 256 := rfl
  have g3 : (eocdBytes n s c).getD 18 0 = c / 65536 % 256 := rfl
  have g4 : (eocdBytes n s c).getD 19 0 = c / 16777216 % 256 := rfl
  rw [g1, g2, g3, g4]
  omega

theorem scanLoopF_tiles (d tail : List Nat)
    (htail : 30 < tail.length → tail.take 4 = [80, 75, 1, 2]) :
    ∀ (es : List LocalEntry) (off fuel : Nat), tilesFrom d off es = true →
      d.length < off + fuel →
      scanLoopF fuel (d ++ tail) off = (es, d.length) := by
  intro es
  induction es with
  | nil =>
    intro off fuel h _
    rw [tilesFrom_nil_iff] at h
    subst h
    cases fuel with
    | zero => rfl
    | succ f =>
      by_cases hg : d.length < (d ++ tail).length - 30
      · have htl : 30 < tail.length := by
          rw [List.length_append] at hg
          omega
        have h4 := take4_getD tail 80 75 1 2 (htail htl)
        have hr : readU32 (d ++ tail) d.length = 0x02014B50 := by
          unfold readU32
          rw [getD_app_right' d tail _ 0 (by omega), getD_app_right' d tail _ 1 (by omega),
            getD_app_right' d tail _ 2 (by omega), getD_app_right' d tail _ 3 (by omega)]
          rw [h4.1, h4.2.1, h4.2.2.1, h4.2.2.2]
        have hr' : ¬ readU32 (d ++ tail) d.length = 0x04034B50 := by
          rw [hr]
          decide
        simp [scanLoopF, hg, hr, hr']
      · rw [List.length_append] at hg
        simp [scanLoopF, List.length_append, hg]
  | cons e es ih =>
    intro off fuel h hf
    rw [tilesFrom_cons_iff] at h
    obtain ⟨hg0, hsig, he, ht⟩ := h
    have hlen31 : off + 30 < d.length := by omega
    cases fuel with
    | zero => exact absurd hf (by omega)
    | succ f =>
      have hoffle := tilesFrom_off_le d es (off + entrySize e) ht
      have hsz : entrySize e =
          30 + readU16 d (off + 26) + readU16 d (off + 28) + readU32 d (off + 18) := by
        rw [he]
        rfl
      have hname : off + 30 + readU16 d (off + 26) ≤ d.length := by omega
      have hpe : parseEntryAt (d ++ tail) off = parseEntryAt d off :=
        parseEntryAt_append d tail off (by omega) hname
      have hg : off < (d ++ tail).length - 30 := by
        rw [List.length_append]
        omega
      have hsig' : readU32 (d ++ tail) off = 0x04034B50 := by
        rw [readU32_append d tail off (by omega)]
        exact hsig
      have hih : scanLoopF f (d ++ tail) (off + entrySize e) = (es, d.length) :=
        ih (off + entrySize e) f ht (by omega)
      simp only [scanLoopF, if_pos hg, if_pos hsig']
      rw [hpe, ← he, hih]

theorem scanZip_tiles (d : List Nat) (es : List LocalEntry)
    (h : tilesFrom d 0 es = true) : scanZip d = (es, d.length) := by
  have h2 := scanLoopF_tiles d [] (by intro h30; simp at h30) es 0 (d.length + 1) h (by omega)
  rw [List.append_nil] at h2
  exact h2

theorem countLoopF_tiles (d tail : List Nat) :
    ∀ (es : List LocalEntry) (off fuel : Nat), tilesFrom d off es = true →
      d.length - off < fuel →
      countLoopF fuel (d ++ tail) off d.length = some es.length := by
  intro es
  induction es with
  | nil =>
    intro off fuel h hf
    rw [tilesFrom_nil_iff] at h
    subst h
    cases fuel with
    | zero => exact absurd hf (by omega)
    | succ f => simp [countLoopF]
  | cons e es ih =>
    intro off fuel h hf
    rw [tilesFrom_cons_iff] at h
    obtain ⟨hg0, hsig, he, ht⟩ := h
    have hoffle := tilesFrom_off_le d es (off + entrySize e) ht
    have hsz : entrySize e =
        30 + readU16 d (off + 26) + readU16 d (off + 28) + readU32 d (off + 18) := by
      rw [he]
      rfl
    cases fuel with
    | zero => exact absurd hf (by omega)
    | succ f =>
      have h1 : off < d.length := by omega
      have h2 : off + 4 ≤ (d ++ tail).length := by
        rw [List.length_append]
        omega
      have hsig' : readU32 (d ++ tail) off = 0x04034B50 := by
        rw [readU32_append d tail off (by omega)]
        exact hsig
      have h3 : off + 30 ≤ (d ++ tail).length := by
        rw [List.length_append]
        omega
      have hadv : off + 30 + readU16 (d ++ tail) (off + 26) + readU16 (d ++ tail) (off + 28) +
          readU32 (d ++ tail) (off + 18) = off + entrySize e := by
        rw [readU16_append d tail (off + 26) (by omega),
          readU16_append d tail (off + 28) (by omega),
          readU32_append d tail (off + 18) (by omega)]
        omega
      have hih : countLoopF f (d ++ tail) (off + entrySize e) d.length = some es.length :=
        ih (off + entrySize e) f ht (by omega)
      simp only [countLoopF, if_pos h1, if_pos h2, if_pos hsig', if_pos h3]
      rw [hadv, hih]
      simp

theorem tilesFrom_buildCD (d : List Nat) (hv : ValidBuf d = true)
    (hlen : d.length < 4294967296) :
    ∀ (es : List LocalEntry) (off : Nat), tilesFrom d off es = true →
      (∀ e ∈ es, e.name.all (· < 128) = true) →
      ∃ cd, buildCD es = some cd ∧
        cd.length ≤ 16 * es.length + (d.length - off) ∧
        (es ≠ [] → cd.take 4 = [80, 75, 1, 2]) := by
  intro es
  induction es with
  | nil =>
    intro off _ _
    exact ⟨[], rfl, by simp, by intro hne; exact absurd rfl hne⟩
  | cons e es ih =>
    intro off h hascii
    rw [tilesFrom_cons_iff] at h
    obtain ⟨hg0, hsig, he, ht⟩ := h
    have hoffle := tilesFrom_off_le d es (off + entrySize e) ht
    have hguard : e.name.all (· < 128) = true ∧ e.ver < 65536 ∧ e.flags < 65536 ∧
        e.method < 65536 ∧ e.modtime < 65536 ∧ e.moddate < 65536 ∧
        e.fn_len < 65536 ∧ e.crc < 4294967296 ∧ e.comp_sz < 4294967296 ∧
        e.uncomp_sz < 4294967296 ∧ e.local_header_offset < 4294967296 := by
      refine ⟨hascii e (by simp), ?_, ?_, ?_, ?_, ?_, ?_, ?_, ?_, ?_, ?_⟩ <;> rw [he]
      · exact readU16_lt d hv (off + 4)
      · exact readU16_lt d hv (off + 6)
      · exact readU16_lt d hv (off + 8)
      · exact readU16_lt d hv (off + 10)
      · exact readU16_lt d hv (off + 12)
      · exact readU16_lt d hv (off + 26)
      · exact readU32_lt d hv (off + 14)
      · exact readU32_lt d hv (off + 18)
      · exact readU32_lt d hv (off + 22)
      · show off < 4294967296
        omega
    have hr : ∃ r, cdRecord e = some r := by
      unfold cdRecord
      rw [if_pos hguard]
      exact ⟨_, rfl⟩
    obtain ⟨r, hrec⟩ := hr
    have hrlen := cdRecord_length_eq e r hrec
    have hrtake := cdRecord_take4 e r hrec
    have hnamelen : e.name.length ≤ e.fn_len := by
      rw [he]
      show (asciiReplace (pySlice d (off + 30) (readU16 d (off + 26)))).length ≤
        readU16 d (off + 26)
      unfold asciiReplace pySlice
      rw [List.length_map, List.length_take]
      exact Nat.min_le_left _ _
    have hszE : entrySize e = 30 + e.fn_len + e.extra_len + e.comp_sz := rfl
    obtain ⟨cd', hcd', hlen', _⟩ := ih (off + entrySize e) ht
      (fun e' he' => hascii e' (by simp [he']))
    refine ⟨r ++ cd', by simp [buildCD, hrec, hcd'], ?_, ?_⟩
    · rw [List.length_append]
      simp only [List.length_cons]
      omega
    · intro _
      rw [List.take_append_of_le_length (by omega)]
      exact hrtake

theorem verify_zip_eq_of_rfind (data : List Nat) (p : Nat)
    (h : rfindPK56 data = some p) :
    verify_zip data =
      (if p + 20 ≤ data.length then
        if data.length ≤ readU32 data (p + 16) then
          some (false, VMsg.offsetOOB (readU32 data (p + 16)))
        else if pySlice data (readU32 data (p + 16)) 4 ≠ [80, 75, 1, 2] then
          some (false, VMsg.badCDSig (readU32 data (p + 16)))
        else
          match countLoopF (readU32 data (p + 16) + 1) data 0 (readU32 data (p + 16)) with
          | none => none
          | some lc =>
            if lc ≠ readU16 data (p + 10) then
              some (false, VMsg.mismatch lc (readU16 data (p + 10)))
            else some (true, VMsg.valid (readU16 data (p + 10)) (readU32 data (p + 16)))
      else none) := by
  unfold verify_zip
  rw [h]

/-- C1 (amended): repair followed by verify succeeds for every buffer the
Scanner fully parses with zero entries lost, provided the scan finds at least
one entry, every filename byte is ASCII (so the builder's re-encode cannot
raise), and the buffer is at most 500000 bytes (ruling out pathological
archives whose EOCD numeric fields themselves contain the EOCD signature
bytes, which would derail the backward signature search). -/
theorem C1_repair_then_verify_valid (data : List Nat) (es : List LocalEntry)
    (hv : ValidBuf data = true) (ht : tilesFrom data 0 es = true)
    (hne : es ≠ []) (hsz : data.length ≤ 500000)
    (hascii : ∀ e ∈ es, e.name.all (· < 128) = true) :
    (rebuild_zip_central_directory data).bind verify_zip =
      some (true, VMsg.valid es.length data.length) := by
  have hlen32 : data.length < 4294967296 := by omega
  have hscan : scanZip data = (es, data.length) := scanZip_tiles data es ht
  obtain ⟨cd, hcd, hcdlen, hcdtake⟩ := tilesFrom_buildCD data hv hlen32 es 0 ht hascii
  have hsum := tilesFrom_size_sum data es 0 ht
  have hge := sum_entrySize_ge es
  have hN : es.length ≤ 16666 := by omega
  have hs766 : cd.length ≤ 766656 := by omega
  have hN65536 : es.length < 65536 := by omega
  have hcdtake' := hcdtake hne
  have hcdge4 : 4 ≤ cd.length := by
    have h4 : (cd.take 4).length = 4 := by
      rw [hcdtake']
      rfl
    rw [List.length_take] at h4
    omega
  have heocd : eocdRecord es.length cd.length data.length =
      some (eocdBytes es.length cd.length data.length) :=
    eocdRecord_eq _ _ _ hN65536 (by omega) hlen32
  have hb : buildCD (scanZip data).1 = some cd := by
    rw [hscan]
    exact hcd
  have he2 : eocdRecord (scanZip data).1.length cd.length (scanZip data).2 =
      some (eocdBytes es.length cd.length data.length) := by
    rw [hscan]
    exact heocd
  have hreb : rebuild_zip_central_directory data =
      some ((data ++ cd) ++ eocdBytes es.length cd.length data.length) := by
    unfold rebuild_zip_central_directory
    simp only [hb, he2, hscan, hcd, heocd, List.take_length]
  rw [hreb]
  show verify_zip ((data ++ cd) ++ eocdBytes es.length cd.length data.length) =
    some (true, VMsg.valid es.length data.length)
  have heolen : (eocdBytes es.length cd.length data.length).length = 22 := rfl
  have houtlen : ((data ++ cd) ++ eocdBytes es.length cd.length data.length).length =
      data.length + cd.length + 22 := by
    rw [List.length_append, List.length_append, heolen]
  have hAlen : (data ++ cd).length = data.length + cd.length :=
    List.length_append _ _
  have hrf : rfindPK56 ((data ++ cd) ++ eocdBytes es.length cd.length data.length) =
      some (data ++ cd).length :=
    rfind_eocd (data ++ cd) es.length cd.length data.length hN hs766 hsz
  rw [verify_zip_eq_of_rfind _ _ hrf]
  have hcdoff : readU32 ((data ++ cd) ++ eocdBytes es.length cd.length data.length)
      ((data ++ cd).length + 16) = data.length :=
    eocd_read_cdoff (data ++ cd) es.length cd.length data.length hlen32
  have hcount16 : readU16 ((data ++ cd) ++ eocdBytes es.length cd.length data.length)
      ((data ++ cd).length + 10) = es.length :=
    eocd_read_count (data ++ cd) es.length cd.length data.length hN65536
  rw [hcdoff, hcount16]
  rw [if_pos (by rw [houtlen, hAlen]; omega)]
  rw [if_neg (by rw [houtlen]; omega)]
  have hsigeq : pySlice ((data ++ cd) ++ eocdBytes es.length cd.length data.length)
      data.length 4 = [80, 75, 1, 2] := by
    unfold pySlice
    rw [List.append_assoc, List.drop_left]
    rw [List.take_append_of_le_length hcdge4]
    exact hcdtake'
  rw [if_neg (by rw [hsigeq]; simp)]
  have hcount : countLoopF (data.length + 1)
      ((data ++ cd) ++ eocdBytes es.length cd.length data.length) 0 data.length =
      some es.length := by
    have h0 := countLoopF_tiles data (cd ++ eocdBytes es.length cd.length data.length)
      es 0 (data.length + 1) ht (by omega)
    rw [← List.append_assoc] at h0
    exact h0
  rw [hcount]
  simp

theorem eocdRecord_length (n s c : Nat) (eo : List Nat)
    (h : eocdRecord n s c = some eo) : eo.length = 22 := by
  unfold eocdRecord at h
  split at h
  · injection h with h
    subst h
    simp [le16, le32]
  · exact absurd h (by simp)

/-- C6 (amended): repair is idempotent on every buffer the Scanner fully
parses with zero entries lost: `repair (repair buffer) = repair buffer` as an
`Option`-level equation (when the first repair raises, so does the
composition), and hence `verify (repair (repair buffer)) =
verify (repair buffer)`. -/
theorem C6_repair_idempotent_amended (data : List Nat) (es : List LocalEntry)
    (ht : tilesFrom data 0 es = true) :
    (rebuild_zip_central_directory data).bind rebuild_zip_central_directory =
      rebuild_zip_central_directory data ∧
    ((rebuild_zip_central_directory data).bind
        rebuild_zip_central_directory).bind verify_zip =
      (rebuild_zip_central_directory data).bind verify_zip := by
  suffices h : (rebuild_zip_central_directory data).bind rebuild_zip_central_directory =
      rebuild_zip_central_directory data by
    exact ⟨h, by rw [h]⟩
  cases hreb : rebuild_zip_central_directory data with
  | none => simp
  | some out =>
    show rebuild_zip_central_directory out = some out
    have hscan := scanZip_tiles data es ht
    unfold rebuild_zip_central_directory at hreb
    split at hreb
    next heq => exact absurd hreb (by simp)
    next cd heq =>
      split at hreb
      next heq2 => exact absurd hreb (by simp)
      next eo heq2 =>
        simp only [Option.some.injEq] at hreb
        rw [hscan] at heq heq2 hreb
        have hcd : buildCD es = some cd := heq
        have heocd : eocdRecord es.length cd.length data.length = some eo := heq2
        rw [List.take_length] at hreb
        have hout : data ++ cd ++ eo = out := hreb
        have heo22 : eo.length = 22 := eocdRecord_length _ _ _ _ heocd
        have htail : 30 < (cd ++ eo).length → (cd ++ eo).take 4 = [80, 75, 1, 2] := by
          intro h30
          cases es with
          | nil =>
            have hcd0 : cd = [] := by
              have h0 : some ([] : List Nat) = some cd := hcd
              injection h0 with h0
              exact h0.symm
            rw [hcd0, List.length_append, heo22] at h30
            simp at h30
          | cons e0 es0 =>
            obtain ⟨r, rest, hr, hrest, hcdeq⟩ := buildCD_cons_inv e0 es0 cd hcd
            have hrtake := cdRecord_take4 e0 r hr
            have hrlen := cdRecord_length_eq e0 r hr
            rw [hcdeq, List.append_assoc,
              List.take_append_of_le_length (by omega)]
            exact hrtake
        have hscan2 : scanZip out = (es, data.length) := by
          rw [← hout, List.append_assoc]
          unfold scanZip
          exact scanLoopF_tiles data (cd ++ eo) htail es 0 _ ht
            (by rw [List.length_append]; omega)
        have hb2 : buildCD (scanZip out).1 = some cd := by
          rw [hscan2]
          exact hcd
        have he3 : eocdRecord (scanZip out).1.length cd.length (scanZip out).2 =
            some eo := by
          rw [hscan2]
          exact heocd
        have htake : out.take data.length = data := by
          rw [← hout, List.append_assoc]
          exact List.take_left data _
        unfold rebuild_zip_central_directory
        simp only [hb2, he3, hscan2, hcd, heocd, htake, hout]

/-- C6 witness: the amended idempotence applied to the fully-parsed one-entry
buffer `c6wbuf`. -/
theorem C6_repair_idempotent_amended_witness :
    tilesFrom c6wbuf 0 c6wes = true ∧
    ((rebuild_zip_central_directory c6wbuf).bind rebuild_zip_central_directory =
        rebuild_zip_central_directory c6wbuf ∧
      ((rebuild_zip_central_directory c6wbuf).bind
          rebuild_zip_central_directory).bind verify_zip =
        (rebuild_zip_central_directory c6wbuf).bind verify_zip) :=
  ⟨by decide, C6_repair_idempotent_amended c6wbuf c6wes (by decide)⟩

/-- C1 witness: the amended repair-then-verify theorem applied to the
fully-parsed one-entry 33-byte buffer `c1wbuf`. -/
theorem C1_repair_then_verify_valid_witness :
    ValidBuf c1wbuf = true ∧ tilesFrom c1wbuf 0 c1wes = true ∧ c1wes ≠ [] ∧
    c1wbuf.length ≤ 500000 ∧
    (rebuild_zip_central_directory c1wbuf).bind verify_zip =
      some (true, VMsg.valid 1 33) := by
  refine ⟨by decide, by decide, by decide, by decide, ?_⟩
  exact C1_repair_then_verify_valid c1wbuf c1wes (by decide) (by decide)
    (by decide) (by decide) (by decide)
